import Mathlib

/-!
Verification of the template cache and project materialization engine
(`template_manager.py` and `parallel_scaffolder.py`): a shallow embedding
of the cache, template resolution, merge, filtering, substitution and
materialization logic, together with theorems settling the specified
properties.

Strings are modelled as Lean `String` (ASCII-faithful for the operations
used); Python `None`-able strings as `Option String`; Python dicts as
association lists in insertion order (`List (key × value)`), which is the
iteration and update order guaranteed by Python 3.7+ dicts; Python's
`OrderedDict` used by the LRU cache likewise as a list whose head is the
least recently used entry; wall-clock time (`time.time()`) as an explicit
`Nat` parameter.
-/

namespace Scaffolder

/-- Python `str.upper()` (ASCII). -/
def pyUpper (s : String) : String :=
  ⟨s.data.map Char.toUpper⟩

/-- Python `str.lower()` (ASCII). -/
def pyLower (s : String) : String :=
  ⟨s.data.map Char.toLower⟩

/-- Replacement core of Python `str.replace`: scan left to right, replacing
each non-overlapping occurrence of `tok` by `rep`.  Structural recursion on
a fuel that the wrapper sets to the scanned string's length, which is
sufficient because every step consumes at least one character (the `0`
case is reached only with the empty string, where returning it is exact). -/
def replaceFuel (tok rep : List Char) : Nat → List Char → List Char
  | 0, s => s
  | _ + 1, [] => []
  | fuel + 1, c :: cs =>
    if tok ≠ [] ∧ tok.isPrefixOf (c :: cs) then
      rep ++ replaceFuel tok rep fuel ((c :: cs).drop tok.length)
    else
      c :: replaceFuel tok rep fuel cs

/-- Python `s.replace(tok, rep)`.  The empty-token case mirrors CPython:
`"ab".replace("", "-") = "-a-b-"`. -/
def pyReplace (s tok rep : String) : String :=
  if tok.data = [] then
    ⟨rep.data ++ (s.data.map (fun c => c :: rep.data)).flatten⟩
  else
    ⟨replaceFuel tok.data rep.data s.data.length s.data⟩

/-- Boolean substring test: does `tok` occur inside `s`? -/
def containsTok (s tok : List Char) : Bool :=
  s.tails.any (fun t => tok.isPrefixOf t)

/-- Python truthiness of an optional string: `None` and `""` are falsy. -/
def isTruthy : Option String → Bool
  | none => false
  | some s => decide (s ≠ "")

/-- Python `f"{x}"` on an `Optional[str]`: `None` prints as `"None"`. -/
def pyStrOpt : Option String → String
  | none => "None"
  | some s => s

/-- Template descriptor as far as resolution is concerned: the three
matching fields (each may be absent in the descriptor JSON, hence
`Option`) plus a name to tell instances apart. -/
structure Template where
  name : String
  language : Option String
  framework : Option String
  projectType : Option String
deriving DecidableEq

/-- Exact-match test of `get_template` / the first loop of the finders:
`template.get("language") == language and template.get("framework") ==
framework and template.get("project_type") == project_type`. -/
def exactMatch (lang : String) (fw pt : Option String) (t : Template) : Bool :=
  t.language == some lang && t.framework == fw && t.projectType == pt

/-- Per-template condition of the single fallback loop of
`_find_template_lazy`: language+framework check first, then the
language-only check, both inside one pass over the index. -/
def lazyFallbackCond (lang : String) (fw : Option String) (t : Template) : Bool :=
  (isTruthy fw && t.language == some lang && t.framework == fw)
    || t.language == some lang

/-- Embedding of `TemplateManager._find_template_lazy`: the index is the
list of successfully loaded templates in index order; first loop looks
for an exact match, the second applies both fallback checks per template. -/
def find_template_lazy (index : List Template) (lang : String)
    (fw pt : Option String) : Option Template :=
  match index.find? (exactMatch lang fw pt) with
  | some t => some t
  | none => index.find? (lazyFallbackCond lang fw)

/-- Embedding of `TemplateManager._find_template_from_list` (eager mode):
three sequential passes — exact, then language+framework (only when
`framework` is truthy), then language-only. -/
def find_template_from_list (templates : List Template) (lang : String)
    (fw pt : Option String) : Option Template :=
  match templates.find? (exactMatch lang fw pt) with
  | some t => some t
  | none =>
    match (if isTruthy fw then
            templates.find? (fun t => t.language == some lang && t.framework == fw)
          else none) with
    | some t => some t
    | none => templates.find? (fun t => t.language == some lang)

/-- Cache key derivation of `get_template`:
`f"{language}_{framework}_{project_type}"`. -/
def cacheKey (lang : String) (fw pt : Option String) : String :=
  lang ++ "_" ++ pyStrOpt fw ++ "_" ++ pyStrOpt pt

/-! LRU cache (`LRUCache` in `template_manager.py`).  The `OrderedDict`
is a list of `(key, value, timestamp)` entries, head = least recently
used.  `now` stands for `time.time()` at the call. -/

/-- State of `LRUCache`. -/
structure LRUCache (V : Type) where
  capacity : Nat
  ttl : Nat
  entries : List (String × V × Nat)
deriving DecidableEq

/-- First value (with its timestamp) stored under `k`, dict lookup. -/
def findKey {V : Type} (k : String) : List (String × V × Nat) → Option (V × Nat)
  | [] => none
  | e :: rest => if e.1 = k then some e.2 else findKey k rest

/-- Remove the entry stored under `k` (dict `pop`): first occurrence. -/
def removeKey {V : Type} (k : String) : List (String × V × Nat) → List (String × V × Nat)
  | [] => []
  | e :: rest => if e.1 = k then rest else e :: removeKey k rest

/-- Embedding of `LRUCache.get`: a hit whose age exceeds the TTL is
popped and reported as a miss; a live hit is moved to the
most-recently-used end. -/
def lruGet {V : Type} (c : LRUCache V) (now : Nat) (k : String) :
    Option V × LRUCache V :=
  match findKey k c.entries with
  | none => (none, c)
  | some (v, ts) =>
    if now - ts > c.ttl then
      (none, { c with entries := removeKey k c.entries })
    else
      (some v, { c with entries := removeKey k c.entries ++ [(k, v, ts)] })

/-- Embedding of `LRUCache.put`: update-in-place-and-move-to-end for an
existing key; append for a new key, then pop the head (oldest) if the
size went over capacity. -/
def lruPut {V : Type} (c : LRUCache V) (now : Nat) (k : String) (v : V) :
    LRUCache V :=
  if (findKey k c.entries).isSome then
    { c with entries := removeKey k c.entries ++ [(k, v, now)] }
  else
    if c.entries.length + 1 > c.capacity then
      { c with entries := (c.entries ++ [(k, v, now)]).tail }
    else
      { c with entries := c.entries ++ [(k, v, now)] }

/-- Embedding of `LRUCache.invalidate`. -/
def lruInvalidate {V : Type} (c : LRUCache V) (k : String) : LRUCache V :=
  { c with entries := removeKey k c.entries }

/-- Embedding of `LRUCache.clear`. -/
def lruClear {V : Type} (c : LRUCache V) : LRUCache V :=
  { c with entries := [] }

/-- Embedding of `LRUCache.cleanup_expired` (only the surviving state). -/
def lruCleanup {V : Type} (c : LRUCache V) (now : Nat) : LRUCache V :=
  { c with entries := c.entries.filter (fun e => ¬ now - e.2.2 > c.ttl) }

/-- Embedding of `TemplateManager.get_template`: derive the cache key,
consult the LRU cache, otherwise resolve through the lazy or eager
finder and cache a successful resolution under the original lookup key. -/
def get_template (lazy : Bool) (index templates : List Template)
    (cache : LRUCache Template) (now : Nat) (lang : String)
    (fw pt : Option String) : Option Template × LRUCache Template :=
  let key := cacheKey lang fw pt
  match lruGet cache now key with
  | (some t, c) => (some t, c)
  | (none, c) =>
    match (if lazy then find_template_lazy index lang fw pt
           else find_template_from_list templates lang fw pt) with
    | some t => (some t, lruPut c now key t)
    | none => (none, c)

/-! Descriptor loading with the size threshold
(`TemplateManager.load_template_from_path`, `_load_standard_template`,
`_load_large_template`).  The descriptor file is `Option (List Char)`
(`none` = `template.json` missing); `parse` stands for `json.loads`
followed by field extraction (`none` = parse failure). -/

/-- Chunked read loop of `_load_large_template`: read `chunkSize`
characters at a time, append to the accumulator, and fail (the
`MemoryError` path, caught by the enclosing handler) as soon as the
accumulated size goes over `maxSize`; an empty chunk ends the loop.
Structural recursion on a fuel that the wrapper sets above the content
length, sufficient because every continuing step consumes at least one
character; the `0` case is reached only with the remainder empty, where
ending the loop is exact. -/
def chunkReadFuel (chunkSize maxSize : Nat) : Nat → List Char → List Char → Option (List Char)
  | 0, acc, _ => some acc
  | fuel + 1, acc, rest =>
    if (rest.take chunkSize).isEmpty then some acc
    else
      if (acc ++ rest.take chunkSize).length > maxSize then none
      else chunkReadFuel chunkSize maxSize fuel (acc ++ rest.take chunkSize) (rest.drop chunkSize)

/-- Assembled body of the chunked read, starting from an empty buffer. -/
def chunkRead (chunkSize maxSize : Nat) (content : List Char) : Option (List Char) :=
  chunkReadFuel chunkSize maxSize (content.length + 1) [] content

/-- Embedding of `TemplateManager._load_large_template`: assemble the
body in chunks, then parse; every failure (including the internal
`MemoryError`) is swallowed into `none`. -/
def load_large_template {T : Type} (parse : List Char → Option T)
    (maxSize chunkSize : Nat) (content : List Char) : Option T :=
  match chunkRead chunkSize maxSize content with
  | none => none
  | some assembled => parse assembled

/-- Embedding of `TemplateManager.load_template_from_path`: `none` when
the descriptor file does not exist; the chunked loader above the size
threshold, plain parse below it (parse failure also `none`). -/
def load_template_from_path {T : Type} (parse : List Char → Option T)
    (maxSize chunkSize : Nat) (file : Option (List Char)) : Option T :=
  match file with
  | none => none
  | some content =>
    if content.length > maxSize then
      load_large_template parse maxSize chunkSize content
    else
      parse content

/-! Project structure graphs and the materializer
(`parallel_scaffolder.py`). -/

/-- Value of one entry of the `files` mapping. -/
structure FileInfo where
  content : String
  description : String := ""
deriving DecidableEq

/-- ProjectStructureGraph: the `{directories, files, scripts}` dict.
Mappings are association lists in dict insertion order. -/
structure ProjectStructure where
  directories : List String := []
  files : List (String × FileInfo) := []
  scripts : List (String × String) := []
deriving DecidableEq

/-- Dict write `d[k] = v`: replace the value at the first occurrence of
`k` keeping its position, append at the end when `k` is new. -/
def dictUpdate {α : Type} : List (String × α) → String → α → List (String × α)
  | [], k, v => [(k, v)]
  | e :: rest, k, v => if e.1 = k then (k, v) :: rest else e :: dictUpdate rest k v

/-- Dict `d.update(other)`: key-wise writes in `other`'s order. -/
def dictUpdateAll {α : Type} (base upd : List (String × α)) : List (String × α) :=
  upd.foldl (fun acc p => dictUpdate acc p.1 p.2) base

/-- Dict read `d.get(k)`. -/
def dictLookup {α : Type} (k : String) : List (String × α) → Option α
  | [] => none
  | e :: rest => if e.1 = k then some e.2 else dictLookup k rest

/-- Embedding of `ParallelScaffolder.merge_project_structures`:
directories are set-unioned (Python materializes `list(set(...))`, whose
iteration order is unspecified; the model fixes the first-occurrence
order, and theorems about directories are stated at the membership
level), files and scripts are key-wise overridden by later overlays. -/
def merge_project_structures (base : ProjectStructure)
    (overlays : List ProjectStructure) : ProjectStructure :=
  { directories :=
      (overlays.foldl (fun acc s => acc ++ s.directories) base.directories).dedup
    files := overlays.foldl (fun acc s => dictUpdateAll acc s.files) base.files
    scripts := overlays.foldl (fun acc s => dictUpdateAll acc s.scripts) base.scripts }

/-! Glob matching (`fnmatch.fnmatch` on a POSIX system, where
`normcase` is the identity): `*` matches any sequence, `?` any single
character, `[...]`/`[!...]` character classes with ranges, `[` with no
closing `]` is a literal. -/

/-- Scan for the closing `]` of a character class, returning the class
body and the remainder of the pattern. -/
def scanClose : List Char → Option (List Char × List Char)
  | [] => none
  | c :: rest =>
    if c = ']' then some ([], rest)
    else
      match scanClose rest with
      | none => none
      | some (a, b) => some (c :: a, b)

/-- Character-class parse after an optional leading `!`: a `]` in first
position is a literal member of the class. -/
def splitClassBody (neg : Bool) : List Char → Option (Bool × List Char × List Char)
  | [] => none
  | c :: rest =>
    if c = ']' then
      match scanClose rest with
      | none => none
      | some (a, b) => some (neg, ']' :: a, b)
    else
      match scanClose (c :: rest) with
      | none => none
      | some (a, b) => some (neg, a, b)

/-- Parse the inside of a `[` class: negation flag, the class body, and
the remaining pattern, or `none` when there is no closing `]`. -/
def splitClass : List Char → Option (Bool × List Char × List Char)
  | [] => none
  | c :: rest =>
    if c = '!' then splitClassBody true rest else splitClassBody false (c :: rest)

/-- Membership of a character in a class body, with `a-b` ranges. -/
def classMatch : List Char → Char → Bool
  | [], _ => false
  | a :: '-' :: b :: rest, c =>
    (a.val ≤ c.val && c.val ≤ b.val) || classMatch rest c
  | a :: rest, c => (a == c) || classMatch rest c

/-- Glob matcher equivalent to the regular expression produced by
`fnmatch.translate`, matching the whole name.  Structural recursion on a
fuel that the wrapper sets to the total length of pattern and name,
sufficient because every recursive step shortens that total (a class
consumes its whole bracketed form at once); the `0` case is reached only
with both lists empty, where `true` is exact. -/
def globFuel : Nat → List Char → List Char → Bool
  | 0, p, s => p.isEmpty && s.isEmpty
  | _ + 1, [], [] => true
  | _ + 1, [], _ :: _ => false
  | fuel + 1, '*' :: ps, s =>
    globFuel fuel ps s ||
      (match s with
       | [] => false
       | _ :: cs => globFuel fuel ('*' :: ps) cs)
  | fuel + 1, '?' :: ps, s =>
    (match s with
     | [] => false
     | _ :: cs => globFuel fuel ps cs)
  | fuel + 1, '[' :: ps, s =>
    (match splitClass ps with
     | none =>
       (match s with
        | [] => false
        | c :: cs => ('[' == c) && globFuel fuel ps cs)
     | some (neg, inner, rest) =>
       (match s with
        | [] => false
        | c :: cs => (classMatch inner c != neg) && globFuel fuel rest cs))
  | fuel + 1, p :: ps, s =>
    (match s with
     | [] => false
     | c :: cs => (p == c) && globFuel fuel ps cs)

/-- Whole-string glob match of a name against a pattern. -/
def globMatch (p s : List Char) : Bool :=
  globFuel (p.length + s.length) p s

/-- `fnmatch.fnmatch(name, pattern)` on POSIX. -/
def fnmatch (name pat : String) : Bool :=
  globMatch pat.data name.data

/-- Embedding of `ParallelScaffolder._matches_patterns`: everything
matches when both lists are absent or empty; exclusions are checked
first and win; a given non-empty include list must match. -/
def matches_patterns (path : String)
    (includePatterns excludePatterns : Option (List String)) : Bool :=
  let incL := includePatterns.getD []
  let excL := excludePatterns.getD []
  if incL.isEmpty && excL.isEmpty then true
  else if excL.any (fun p => fnmatch path p) then false
  else if !incL.isEmpty then incL.any (fun p => fnmatch path p)
  else true

/-- Filtering stage of `ParallelScaffolder.apply_partial_template`: the
structure actually materialized keeps exactly the entries whose path
passes `_matches_patterns`. -/
def apply_filtered (t : ProjectStructure)
    (includePatterns excludePatterns : Option (List String)) : ProjectStructure :=
  { directories :=
      t.directories.filter (fun d => matches_patterns d includePatterns excludePatterns)
    files :=
      t.files.filter (fun f => matches_patterns f.1 includePatterns excludePatterns)
    scripts :=
      t.scripts.filter (fun s => matches_patterns s.1 includePatterns excludePatterns) }

/-! Placeholder substitution (`TemplateManager.customize_template` and
`ParallelScaffolder._apply_config_to_structure` share it). -/

/-- The `replacements` dict, in insertion order. -/
def replacements (projectName : String) : List (String × String) :=
  [("{{project_name}}", projectName),
   ("{{PROJECT_NAME}}", pyUpper projectName),
   ("{{project-name}}", pyReplace (pyLower projectName) " " "-")]

/-- Sequential application of the three replacements to one content
string, in dict order, via Python `str.replace`. -/
def applyReplacements (projectName content : String) : String :=
  (replacements projectName).foldl (fun c pr => pyReplace c pr.1 pr.2) content

/-- Template descriptor as far as customization is concerned. -/
structure Descriptor where
  files : List (String × FileInfo) := []
  directories : List String := []
  scripts : List (String × String) := []
  projectName : String := ""
deriving DecidableEq

/-- Embedding of `TemplateManager.customize_template` (the deep copy is
implicit in a pure function): substitute in every file's content and
record the project name; `config.get("project_name", "")` is the
`cfgName` argument. -/
def customize_template (t : Descriptor) (cfgName : String) : Descriptor :=
  { t with
    files := t.files.map
      (fun f => (f.1, { f.2 with content := applyReplacements cfgName f.2.content }))
    projectName := cfgName }

/-- Embedding of `ParallelScaffolder._apply_config_to_structure`: same
substitution over a structure graph; directories and scripts untouched. -/
def apply_config_to_structure (s : ProjectStructure) (cfgName : String) : ProjectStructure :=
  { s with
    files := s.files.map
      (fun f => (f.1, { f.2 with content := applyReplacements cfgName f.2.content })) }

/-- Modelled from the claim's words, for comparison: a single
simultaneous left-to-right scan replacing each of the three exact
tokens by its value (every token is 16 characters long).  Structural
recursion on a fuel that the wrapper sets to the content length,
sufficient because every step consumes at least one character. -/
def claimedSubstFuel (r1 r2 r3 : List Char) : Nat → List Char → List Char
  | 0, s => s
  | _ + 1, [] => []
  | fuel + 1, c :: cs =>
    if "{{project_name}}".data.isPrefixOf (c :: cs) then
      r1 ++ claimedSubstFuel r1 r2 r3 fuel ((c :: cs).drop 16)
    else if "{{PROJECT_NAME}}".data.isPrefixOf (c :: cs) then
      r2 ++ claimedSubstFuel r1 r2 r3 fuel ((c :: cs).drop 16)
    else if "{{project-name}}".data.isPrefixOf (c :: cs) then
      r3 ++ claimedSubstFuel r1 r2 r3 fuel ((c :: cs).drop 16)
    else
      c :: claimedSubstFuel r1 r2 r3 fuel cs

/-- Simultaneous substitution over one content string, as the claim
states it: each token replaced by its value, everything else verbatim. -/
def claimedSubst (projectName content : String) : String :=
  ⟨claimedSubstFuel projectName.data (pyUpper projectName).data
    (pyReplace (pyLower projectName) " " "-").data content.data.length content.data⟩

/-! Materialization paths (`ParallelScaffolder.create_project_structure`
and helpers).  An absolute path is a list of components; joining the
target root with a relative path resolves `.`/`..` the way the
filesystem does when the joined path is opened. -/

/-- Split accumulator for `splitPath`. -/
def splitPathAux : List Char → List Char → List String
  | cur, [] => [⟨cur.reverse⟩]
  | cur, c :: cs =>
    if c = '/' then ⟨cur.reverse⟩ :: splitPathAux [] cs
    else splitPathAux (c :: cur) cs

/-- Components of a relative path string, split on `/`. -/
def splitPath (s : String) : List String :=
  splitPathAux [] s.data

/-- One component step of filesystem path resolution. -/
def normStep (acc : List String) (comp : String) : List String :=
  if comp = "" ∨ comp = "." then acc
  else if comp = ".." then acc.dropLast
  else acc ++ [comp]

/-- Join a relative path onto a root and resolve it. -/
def normJoin (root : List String) (rel : String) : List String :=
  (splitPath rel).foldl normStep root

/-- Containment of a resolved path in the target root. -/
def isWithin (root p : List String) : Bool :=
  root.isPrefixOf p

/-- On-disk write targets of
`ParallelScaffolder.create_project_structure`: every directory, file
and script path is joined onto the target root verbatim (scripts under
`scripts/`); the code performs no validation or rejection of any path
before writing. -/
def create_project_structure_writes (root : List String)
    (g : ProjectStructure) : List (List String) :=
  g.directories.map (normJoin root)
    ++ g.files.map (fun f => normJoin root f.1)
    ++ g.scripts.map (fun s => normJoin root ("scripts/" ++ s.1))

/-- Result record of `create_project_structure` (the returned counts). -/
def create_project_structure_counts (g : ProjectStructure) : Nat × Nat × Nat :=
  (g.directories.length, g.files.length, g.scripts.length)

/-! Helper lemmas about the dict and cache models. -/

theorem findKey_eq_none_iff {V : Type} (k : String) :
    ∀ l : List (String × V × Nat), findKey k l = none ↔ k ∉ l.map (fun e => e.1) := by
  intro l
  induction l with
  | nil => simp [findKey]
  | cons e rest ih =>
    simp only [findKey, List.map_cons, List.mem_cons]
    split
    · rename_i he
      simp [he.symm]
    · rename_i he
      simp only [ih]
      constructor
      · intro h hk
        rcases hk with hk | hk
        · exact he hk.symm
        · exact h hk
      · intro h hk
        exact h (Or.inr hk)

theorem findKey_append {V : Type} (k : String) :
    ∀ l₁ l₂ : List (String × V × Nat),
      findKey k (l₁ ++ l₂)
        = match findKey k l₁ with
          | some p => some p
          | none => findKey k l₂ := by
  intro l₁ l₂
  induction l₁ with
  | nil => simp [findKey]
  | cons e rest ih =>
    simp only [List.cons_append, findKey]
    split
    · rfl
    · exact ih

theorem removeKey_head {V : Type} (k : String) (e : String × V × Nat)
    (rest : List (String × V × Nat)) (he : e.1 = k) :
    removeKey k (e :: rest) = rest := by
  simp [removeKey, he]

theorem removeKey_of_not_mem {V : Type} (k : String) :
    ∀ l : List (String × V × Nat), k ∉ l.map (fun e => e.1) → removeKey k l = l := by
  intro l
  induction l with
  | nil => simp [removeKey]
  | cons e rest ih =>
    intro h
    simp only [List.map_cons, List.mem_cons, not_or] at h
    simp only [removeKey]
    rw [if_neg (fun hc => h.1 hc.symm), ih h.2]

theorem findKey_removeKey_self {V : Type} (k : String) :
    ∀ l : List (String × V × Nat), (l.map (fun e => e.1)).Nodup →
      findKey k (removeKey k l) = none := by
  intro l
  induction l with
  | nil => intro _; simp [removeKey, findKey]
  | cons e rest ih =>
    intro hnd
    simp only [List.map_cons, List.nodup_cons] at hnd
    simp only [removeKey]
    split
    · rename_i he
      rw [findKey_eq_none_iff]
      rw [← he]
      exact hnd.1
    · rename_i he
      simp only [findKey]
      rw [if_neg he]
      exact ih hnd.2

theorem removeKey_length_le {V : Type} (k : String) :
    ∀ l : List (String × V × Nat), (removeKey k l).length ≤ l.length := by
  intro l
  induction l with
  | nil => simp [removeKey]
  | cons e rest ih =>
    simp only [removeKey]
    split
    · simp
    · simp only [List.length_cons]
      omega

theorem removeKey_length_of_found {V : Type} (k : String) :
    ∀ l : List (String × V × Nat), (findKey k l).isSome →
      (removeKey k l).length + 1 = l.length := by
  intro l
  induction l with
  | nil => intro h; simp [findKey] at h
  | cons e rest ih =>
    intro h
    simp only [findKey] at h
    simp only [removeKey]
    by_cases he : e.1 = k
    · rw [if_pos he]; simp
    · rw [if_neg he] at h ⊢
      simp only [List.length_cons]
      rw [← ih h]

theorem removeKey_keys_subset {V : Type} (k k' : String) :
    ∀ l : List (String × V × Nat), k' ∈ (removeKey k l).map (fun e => e.1) →
      k' ∈ l.map (fun e => e.1) := by
  intro l
  induction l with
  | nil => simp [removeKey]
  | cons e rest ih =>
    simp only [removeKey]
    split
    · intro h
      simp only [List.map_cons, List.mem_cons]
      exact Or.inr h
    · intro h
      simp only [List.map_cons, List.mem_cons] at h ⊢
      rcases h with h | h
      · exact Or.inl h
      · exact Or.inr (ih h)

theorem dictLookup_eq_none_iff {α : Type} (k : String) :
    ∀ l : List (String × α), dictLookup k l = none ↔ k ∉ l.map (fun e => e.1) := by
  intro l
  induction l with
  | nil => simp [dictLookup]
  | cons e rest ih =>
    simp only [dictLookup, List.map_cons, List.mem_cons]
    split
    · rename_i he
      simp [he.symm]
    · rename_i he
      simp only [ih]
      constructor
      · intro h hk
        rcases hk with hk | hk
        · exact he hk.symm
        · exact h hk
      · intro h hk
        exact h (Or.inr hk)

theorem dictLookup_update {α : Type} (k k' : String) (v : α) :
    ∀ l : List (String × α),
      dictLookup k (dictUpdate l k' v)
        = if k = k' then some v else dictLookup k l := by
  intro l
  induction l with
  | nil =>
    simp only [dictUpdate, dictLookup]
    by_cases hk : k = k'
    · rw [if_pos hk.symm, if_pos hk]
    · rw [if_neg (fun hc => hk hc.symm), if_neg hk]
  | cons e rest ih =>
    simp only [dictUpdate]
    by_cases he : e.1 = k'
    · rw [if_pos he]
      simp only [dictLookup]
      by_cases hk : k = k'
      · rw [if_pos hk, if_pos hk.symm]
      · rw [if_neg hk, if_neg (fun hc => hk hc.symm), if_neg (by rw [he]; exact fun hc => hk hc.symm)]
    · rw [if_neg he]
      simp only [dictLookup]
      by_cases hek : e.1 = k
      · rw [if_pos hek, if_pos hek]
        rw [if_neg (fun hc : k = k' => he (hek.trans hc))]
      · rw [if_neg hek, if_neg hek, ih]

theorem dictUpdate_self {α : Type} (k : String) (v : α) :
    ∀ l : List (String × α), dictLookup k l = some v → dictUpdate l k v = l := by
  intro l
  induction l with
  | nil => intro h; simp [dictLookup] at h
  | cons e rest ih =>
    intro h
    simp only [dictLookup] at h
    simp only [dictUpdate]
    by_cases he : e.1 = k
    · rw [if_pos he] at h
      rw [if_pos he]
      cases h
      rw [← he]
    · rw [if_neg he] at h
      rw [if_neg he, ih h]

theorem dictUpdateAll_self {α : Type} :
    ∀ (m l : List (String × α)), (∀ p ∈ m, dictLookup p.1 l = some p.2) →
      dictUpdateAll l m = l := by
  intro m
  induction m with
  | nil => intro l _; rfl
  | cons p rest ih =>
    intro l h
    have hp : dictUpdate l p.1 p.2 = l := dictUpdate_self p.1 p.2 l (h p (by simp))
    show dictUpdateAll (dictUpdate l p.1 p.2) rest = l
    rw [hp]
    exact ih l (fun q hq => h q (by simp [hq]))

theorem dictLookup_of_mem_nodup {α : Type} :
    ∀ l : List (String × α), (l.map (fun e => e.1)).Nodup →
      ∀ p ∈ l, dictLookup p.1 l = some p.2 := by
  intro l
  induction l with
  | nil => intro _ p hp; simp at hp
  | cons e rest ih =>
    intro hnd p hp
    simp only [List.map_cons, List.nodup_cons] at hnd
    simp only [List.mem_cons] at hp
    rcases hp with hp | hp
    · subst hp
      simp [dictLookup]
    · simp only [dictLookup]
      have hne : e.1 ≠ p.1 := by
        intro hc
        exact hnd.1 (hc ▸ (List.mem_map.mpr ⟨p, hp, rfl⟩))
      rw [if_neg hne]
      exact ih hnd.2 p hp

theorem dictLookup_updateAll {α : Type} (k : String) :
    ∀ (m l : List (String × α)), (m.map (fun e => e.1)).Nodup →
      dictLookup k (dictUpdateAll l m)
        = match dictLookup k m with
          | some v => some v
          | none => dictLookup k l := by
  intro m
  induction m with
  | nil => intro l _; rfl
  | cons p rest ih =>
    intro l hnd
    simp only [List.map_cons, List.nodup_cons] at hnd
    show dictLookup k (dictUpdateAll (dictUpdate l p.1 p.2) rest)
        = match dictLookup k (p :: rest) with
          | some v => some v
          | none => dictLookup k l
    rw [ih (dictUpdate l p.1 p.2) hnd.2]
    simp only [dictLookup]
    by_cases hk : p.1 = k
    · rw [if_pos hk]
      have hrest : dictLookup k rest = none := by
        rw [dictLookup_eq_none_iff]
        rw [← hk]
        exact hnd.1
      rw [hrest, dictLookup_update]
      rw [if_pos hk.symm]
    · rw [if_neg hk]
      cases hr : dictLookup k rest with
      | some v => rfl
      | none =>
        simp only []
        rw [dictLookup_update, if_neg (fun hc => hk hc.symm)]

theorem chunkReadFuel_over (chunkSize maxSize : Nat) (hcs : 0 < chunkSize) :
    ∀ (fuel : Nat) (acc rest : List Char), rest.length < fuel →
      acc.length ≤ maxSize → maxSize < acc.length + rest.length →
      chunkReadFuel chunkSize maxSize fuel acc rest = none := by
  intro fuel
  induction fuel with
  | zero => intro acc rest h _ _; omega
  | succ n ih =>
    intro acc rest hlen hacc hover
    have hrest : rest ≠ [] := by
      intro h
      subst h
      simp only [List.length_nil] at hover
      omega
    have hrestlen : 0 < rest.length := List.length_pos.mpr hrest
    simp only [chunkReadFuel]
    rw [if_neg (by
      simp only [List.isEmpty_iff, List.take_eq_nil_iff, not_or]
      exact ⟨by omega, hrest⟩)]
    by_cases hover2 : (acc ++ rest.take chunkSize).length > maxSize
    · rw [if_pos hover2]
    · rw [if_neg hover2]
      apply ih
      · simp only [List.length_drop]
        omega
      · omega
      · simp only [List.length_append, List.length_take, List.length_drop] at hover2 ⊢
        omega

theorem replaceFuel_of_not_contains (tok rep : List Char) :
    ∀ (fuel : Nat) (s : List Char), s.length ≤ fuel →
      containsTok s tok = false → replaceFuel tok rep fuel s = s := by
  intro fuel
  induction fuel with
  | zero => intro s _ _; rfl
  | succ n ih =>
    intro s hlen hcon
    cases s with
    | nil => rfl
    | cons c cs =>
      simp only [containsTok, List.tails, List.any_cons, Bool.or_eq_false_iff] at hcon
      have hnp : tok.isPrefixOf (c :: cs) = false := hcon.1
      have hrest : containsTok cs tok = false := by
        simp only [containsTok]
        exact hcon.2
      simp only [replaceFuel]
      rw [if_neg (by
        intro h
        rw [hnp] at h
        exact Bool.noConfusion h.2)]
      simp only [List.length_cons] at hlen
      rw [ih cs (by omega) hrest]

/-- Lookup through a base dict and a list of overlay dicts, later
overlays taking precedence. -/
def overlayLookup {α : Type} (k : String) (base : List (String × α))
    (ovs : List (List (String × α))) : Option α :=
  ovs.foldl (fun acc l =>
    match dictLookup k l with
    | some v => some v
    | none => acc) (dictLookup k base)

theorem dictLookup_foldl_updateAll {α : Type} (k : String) :
    ∀ (ovs : List (List (String × α))) (base : List (String × α)),
      (∀ l ∈ ovs, (l.map (fun e => e.1)).Nodup) →
      dictLookup k (ovs.foldl (fun acc l => dictUpdateAll acc l) base)
        = overlayLookup k base ovs := by
  intro ovs
  induction ovs with
  | nil => intro base _; rfl
  | cons l rest ih =>
    intro base hnd
    show dictLookup k (rest.foldl (fun acc l => dictUpdateAll acc l) (dictUpdateAll base l))
        = overlayLookup k base (l :: rest)
    rw [ih (dictUpdateAll base l) (fun m hm => hnd m (by simp [hm]))]
    simp only [overlayLookup, List.foldl_cons]
    rw [dictLookup_updateAll k l base (hnd l (by simp))]

theorem foldl_append_dirs_mem (d : String) :
    ∀ (ovs : List ProjectStructure) (acc : List String),
      (d ∈ ovs.foldl (fun a s => a ++ s.directories) acc
        ↔ d ∈ acc ∨ ∃ s ∈ ovs, d ∈ s.directories) := by
  intro ovs
  induction ovs with
  | nil => intro acc; simp
  | cons s rest ih =>
    intro acc
    show d ∈ rest.foldl (fun a s => a ++ s.directories) (acc ++ s.directories)
        ↔ d ∈ acc ∨ ∃ t ∈ s :: rest, d ∈ t.directories
    rw [ih (acc ++ s.directories)]
    simp only [List.mem_append, List.mem_cons]
    constructor
    · rintro ((h | h) | ⟨t, ht, hd⟩)
      · exact Or.inl h
      · exact Or.inr ⟨s, Or.inl rfl, h⟩
      · exact Or.inr ⟨t, Or.inr ht, hd⟩
    · rintro (h | ⟨t, ht | ht, hd⟩)
      · exact Or.inl (Or.inl h)
      · exact Or.inl (Or.inr (ht ▸ hd))
      · exact Or.inr ⟨t, ht, hd⟩

/-! Claim theorems. -/

/-- C10: the derived cache key (language, framework, projectType joined
with underscores, absent components printed as `None`) is not
injective — `("a_b", "c", None)` and `("a", "b_c", None)` share the key
`"a_b_c_None"` — so a `get_template` call for the second triple returns
the descriptor cached by an earlier call for the first, without
consulting the template store at all (both finder lists are empty
here). -/
theorem C10_cache_key_collision :
    cacheKey "a_b" (some "c") none = cacheKey "a" (some "b_c") none
    ∧ ("a_b", some "c", (none : Option String)) ≠ ("a", some "b_c", (none : Option String))
    ∧ (get_template true [] []
        ⟨50, 1800, [("a_b_c_None", ⟨"cached", some "x", none, none⟩, 100)]⟩
        100 "a" (some "b_c") none).1
      = some ⟨"cached", some "x", none, none⟩ :=
  ⟨by decide, by decide, by decide⟩

/-- C1 counterexample: with the index holding a language-only template
before a language+framework template and no exact match, lazy-mode
resolution returns the language-only template, not the
language+framework one the claim requires. -/
theorem C1_counterexample :
    find_template_lazy
      [⟨"langOnly", some "python", none, none⟩,
       ⟨"langFw", some "python", some "fastapi", none⟩]
      "python" (some "fastapi") (some "api")
      = some ⟨"langOnly", some "python", none, none⟩
    ∧ (⟨"langOnly", some "python", none, none⟩ : Template)
        ≠ ⟨"langFw", some "python", some "fastapi", none⟩ :=
  ⟨by decide, by decide⟩

/-- Collapsing the single fallback pass of lazy mode: the per-template
disjunction (language+framework, else language) is equivalent to the
plain language test. -/
theorem lazyFallbackCond_eq_language (lang : String) (fw : Option String)
    (t : Template) : lazyFallbackCond lang fw t = (t.language == some lang) := by
  unfold lazyFallbackCond
  cases h : (t.language == some lang) <;> simp [h]

/-- C1 (amended): exact match is resolved first in both modes.  In eager
mode the fallback then follows strict priority — a language+framework
match (when a framework is given) is returned before any language-only
match.  In lazy mode the two fallback checks run per template inside a
single pass, which collapses to returning the first template in index
order whose language matches, regardless of framework. -/
theorem C1_resolution_order :
    (∀ (index : List Template) (lang : String) (fw pt : Option String),
      find_template_lazy index lang fw pt
        = match index.find? (exactMatch lang fw pt) with
          | some t => some t
          | none => index.find? (fun t => t.language == some lang))
    ∧ (∀ (ts : List Template) (lang : String) (fw pt : Option String) (t0 : Template),
        ts.find? (exactMatch lang fw pt) = none →
        isTruthy fw = true →
        ts.find? (fun t => t.language == some lang && t.framework == fw) = some t0 →
        find_template_from_list ts lang fw pt = some t0)
    ∧ (∀ (ts : List Template) (lang : String) (fw pt : Option String),
        ts.find? (exactMatch lang fw pt) = none →
        (if isTruthy fw then
            ts.find? (fun t => t.language == some lang && t.framework == fw)
          else none) = none →
        find_template_from_list ts lang fw pt
          = ts.find? (fun t => t.language == some lang)) := by
  refine ⟨?_, ?_, ?_⟩
  · intro index lang fw pt
    unfold find_template_lazy
    have hp : (index.find? (lazyFallbackCond lang fw))
        = index.find? (fun t => t.language == some lang) := by
      have : lazyFallbackCond lang fw = (fun t => t.language == some lang) :=
        funext (lazyFallbackCond_eq_language lang fw)
      rw [this]
    rw [hp]
  · intro ts lang fw pt t0 h1 h2 h3
    unfold find_template_from_list
    rw [h1, h2, if_pos rfl, h3]
  · intro ts lang fw pt h1 h2
    unfold find_template_from_list
    rw [h1, h2]

/-- Witness for C1: the eager fallback really does return the
language+framework template when one exists. -/
theorem C1_resolution_order_witness :
    find_template_from_list
      [⟨"langOnly2", some "python", none, none⟩,
       ⟨"langFw2", some "python", some "fastapi", none⟩]
      "python" (some "fastapi") (some "api")
      = some ⟨"langFw2", some "python", some "fastapi", none⟩ :=
  C1_resolution_order.2.1 _ "python" (some "fastapi") (some "api") _
    (by decide) (by decide) (by decide)

/-- C2: the materializer performs no path-escape validation — a file
path containing `..` is joined verbatim onto the target root and the
resulting write lands outside the root (here `tmp/evil.txt`, not under
`tmp/proj`).  The claim's required rejection does not exist anywhere in
`create_project_structure` or `_create_file`. -/
theorem C2_escape_written :
    create_project_structure_writes ["tmp", "proj"]
      { directories := [], files := [("../evil.txt", { content := "x" })], scripts := [] }
      = [["tmp", "evil.txt"]]
    ∧ isWithin ["tmp", "proj"] ["tmp", "evil.txt"] = false :=
  ⟨by decide, by decide⟩

/-- C4 counterexample: with a parse function that succeeds on any
input, a descriptor over the size limit still loads to `none` — the very
same outcome as a missing descriptor file, so no distinct, named
size-limit error reaches the caller (the internal `MemoryError` is
caught and swallowed by `_load_large_template`). -/
theorem C4_counterexample :
    load_template_from_path (fun c => some c.length) 4 2 (some "aaaaaa".data)
      = load_template_from_path (fun c => some c.length) 4 2 none
    ∧ load_template_from_path (fun c => some c.length) 4 2 (some "aaaaaa".data) = none :=
  ⟨by decide, by decide⟩

/-- C4 (amended): loading a descriptor whose size exceeds the maximum
always fails — the chunked read aborts (the `MemoryError` path) before
parsing — but the failure is returned as the absent result `none`, the
same outcome as a missing descriptor, not a distinct named error. -/
theorem C4_size_limit_absent (T : Type) (parse : List Char → Option T)
    (maxSize chunkSize : Nat) (hcs : 0 < chunkSize) (content : List Char)
    (hbig : maxSize < content.length) :
    chunkRead chunkSize maxSize content = none
    ∧ load_template_from_path parse maxSize chunkSize (some content) = none
    ∧ load_template_from_path parse maxSize chunkSize none = none := by
  have hchunk : chunkRead chunkSize maxSize content = none := by
    unfold chunkRead
    exact chunkReadFuel_over chunkSize maxSize hcs (content.length + 1) [] content
      (by omega) (by simp) (by simpa)
  refine ⟨hchunk, ?_, rfl⟩
  simp only [load_template_from_path, load_large_template, gt_iff_lt, hbig, if_true, hchunk]

/-- Witness for C4 at a concrete oversized descriptor. -/
theorem C4_size_limit_absent_witness :
    chunkRead 2 4 "aaaaa".data = none
    ∧ load_template_from_path (fun c => some c.length) 4 2 (some "aaaaa".data) = none
    ∧ load_template_from_path (fun c => some c.length) 4 2 none = none :=
  C4_size_limit_absent Nat (fun c => some c.length) 4 2 (by decide) "aaaaa".data (by decide)

/-- C5: an entry whose age strictly exceeds the TTL is reported as a
miss and physically removed by the read itself; a value just put is
returned by a read within the TTL (the cache must hold at least one
entry, so capacity ≥ 1); and `get_template` falls through to the real
finder when its cached entry has expired. -/
theorem C5_ttl_visibility {V : Type} (c : LRUCache V) (now : Nat) (k : String)
    (v : V) (ts : Nat)
    (hnd : (c.entries.map (fun e => e.1)).Nodup) :
    (findKey k c.entries = some (v, ts) → c.ttl < now - ts →
      (lruGet c now k).1 = none
      ∧ findKey k (lruGet c now k).2.entries = none)
    ∧ (1 ≤ c.capacity → ∀ getNow : Nat, getNow - now ≤ c.ttl →
        (lruGet (lruPut c now k v) getNow k).1 = some v)
    ∧ (∀ (lz : Bool) (index templates : List Template)
        (c' : LRUCache Template) (tv : Template) (lang : String)
        (fw pt : Option String),
        findKey (cacheKey lang fw pt) c'.entries = some (tv, ts) →
        c'.ttl < now - ts →
        (get_template lz index templates c' now lang fw pt).1
          = (if lz then find_template_lazy index lang fw pt
             else find_template_from_list templates lang fw pt)) := by
  refine ⟨?_, ?_, ?_⟩
  · intro hfind hexp
    have h1 : lruGet c now k = (none, { c with entries := removeKey k c.entries }) := by
      simp only [lruGet, hfind, gt_iff_lt, hexp, if_true]
    rw [h1]
    exact ⟨rfl, findKey_removeKey_self k c.entries hnd⟩
  · intro hcap getNow hlive
    unfold lruPut
    by_cases hk : (findKey k c.entries).isSome
    · rw [if_pos hk]
      have hfind : findKey k (removeKey k c.entries ++ [(k, v, now)]) = some (v, now) := by
        rw [findKey_append]
        rw [findKey_removeKey_self k c.entries hnd]
        simp [findKey]
      simp only [lruGet, hfind, gt_iff_lt]
      rw [if_neg (by omega : ¬ c.ttl < getNow - now)]
    · rw [if_neg hk]
      have hnone : findKey k c.entries = none := by
        cases h : findKey k c.entries
        · rfl
        · rw [h] at hk; simp at hk
      have hnotmem : k ∉ c.entries.map (fun e => e.1) :=
        (findKey_eq_none_iff k c.entries).mp hnone
      by_cases hover : c.entries.length + 1 > c.capacity
      · rw [if_pos hover]
        obtain ⟨e, es, he⟩ : ∃ e es, c.entries = e :: es := by
          cases hc : c.entries with
          | nil => rw [hc] at hover; simp at hover; omega
          | cons e es => exact ⟨e, es, rfl⟩
        have hrest : k ∉ es.map (fun x => x.1) := by
          rw [he] at hnotmem
          simp only [List.map_cons, List.mem_cons, not_or] at hnotmem
          exact hnotmem.2
        have hfind : findKey k ((e :: es ++ [(k, v, now)]).tail) = some (v, now) := by
          simp only [List.cons_append, List.tail_cons]
          rw [findKey_append]
          rw [(findKey_eq_none_iff k es).mpr hrest]
          simp [findKey]
        rw [he]
        simp only [lruGet, hfind, gt_iff_lt]
        rw [if_neg (by omega : ¬ c.ttl < getNow - now)]
      · rw [if_neg hover]
        have hfind : findKey k (c.entries ++ [(k, v, now)]) = some (v, now) := by
          rw [findKey_append]
          rw [hnone]
          simp [findKey]
        simp only [lruGet, hfind, gt_iff_lt]
        rw [if_neg (by omega : ¬ c.ttl < getNow - now)]
  · intro lz index templates c' tv lang fw pt hfind hexp
    have hg : lruGet c' now (cacheKey lang fw pt)
        = (none, { c' with entries := removeKey (cacheKey lang fw pt) c'.entries }) := by
      simp only [lruGet, hfind, gt_iff_lt, hexp, if_true]
    simp only [get_template, hg]
    cases hf : (if lz then find_template_lazy index lang fw pt
                else find_template_from_list templates lang fw pt) with
    | some t => simp [hf]
    | none => simp [hf]

/-- Witness for C5: a concrete expired read misses; a concrete fresh
put-then-get returns the stored value. -/
theorem C5_ttl_visibility_witness :
    (lruGet (⟨2, 10, [("k", (7 : Nat), 0)]⟩ : LRUCache Nat) 100 "k").1 = none
    ∧ (lruGet (lruPut (⟨2, 10, [("k", (7 : Nat), 0)]⟩ : LRUCache Nat) 100 "k2" 9) 105 "k2").1
        = some 9 := by
  constructor
  · exact ((C5_ttl_visibility (⟨2, 10, [("k", (7 : Nat), 0)]⟩ : LRUCache Nat)
      100 "k" 7 0 (by decide)).1 (by decide) (by decide)).1
  · exact (C5_ttl_visibility (⟨2, 10, [("k", (7 : Nat), 0)]⟩ : LRUCache Nat)
      100 "k2" 9 0 (by decide)).2.1 (by decide) 105 (by decide)

theorem lruGet_capacity {V : Type} (c : LRUCache V) (now : Nat) (k : String) :
    (lruGet c now k).2.capacity = c.capacity := by
  unfold lruGet
  split
  · rfl
  · split <;> rfl

/-- C6 counterexample: a full cache whose least-recently-used entry
`"k1"` is expired (age `105 - 0` exceeds the TTL `10`).  Inserting the
new key `"k3"` evicts `"k1"` — an expired entry — while the
least-recently-used non-expired entry `"k2"` survives, so the eviction
target is not the least-recently-used non-expired entry the claim
names. -/
theorem C6_counterexample :
    (lruPut (⟨2, 10, [("k1", (1 : Nat), 0), ("k2", 2, 100)]⟩ : LRUCache Nat)
        105 "k3" 3).entries
      = [("k2", 2, 100), ("k3", 3, 105)]
    ∧ 10 < 105 - 0 :=
  ⟨by decide, by decide⟩

/-- C6 (amended): the size bound is preserved by every cache operation;
inserting a new key into a full cache evicts exactly the
least-recently-used entry — the head of the recency order — regardless
of whether it has expired; and reading a live entry moves it to the
most-recently-used end, so in a cache of at least two entries it
survives the next insertion's eviction, which it would not have
survived without the read. -/
theorem C6_capacity_eviction {V : Type} (c : LRUCache V) (now now2 : Nat)
    (k k' : String) (v : V) :
    (c.entries.length ≤ c.capacity →
      (lruPut c now k v).entries.length ≤ c.capacity
      ∧ (lruGet c now k').2.entries.length ≤ c.capacity
      ∧ (lruInvalidate c k').entries.length ≤ c.capacity
      ∧ (lruClear c).entries.length ≤ c.capacity
      ∧ (lruCleanup c now).entries.length ≤ c.capacity)
    ∧ (∀ e rest, c.entries = e :: rest → findKey k c.entries = none →
        c.entries.length = c.capacity →
        (lruPut c now k v).entries = rest ++ [(k, v, now)])
    ∧ (∀ e rest, c.entries = e :: rest → rest ≠ [] →
        (c.entries.map (fun x => x.1)).Nodup →
        now - e.2.2 ≤ c.ttl →
        c.entries.length = c.capacity →
        findKey k c.entries = none →
        e ∈ (lruPut ((lruGet c now e.1).2) now2 k v).entries
        ∧ e ∉ (lruPut c now2 k v).entries) := by
  refine ⟨?_, ?_, ?_⟩
  · intro hle
    refine ⟨?_, ?_, ?_, ?_, ?_⟩
    · unfold lruPut
      by_cases hk : (findKey k c.entries).isSome
      · rw [if_pos hk]
        have := removeKey_length_of_found k c.entries hk
        simp only [List.length_append, List.length_cons, List.length_nil]
        omega
      · rw [if_neg hk]
        by_cases hover : c.entries.length + 1 > c.capacity
        · rw [if_pos hover]
          simp only [List.length_tail, List.length_append, List.length_cons,
            List.length_nil]
          omega
        · rw [if_neg hover]
          simp only [List.length_append, List.length_cons, List.length_nil]
          omega
    · cases h : findKey k' c.entries with
      | none => simp only [lruGet, h]; exact hle
      | some p =>
        cases p with
        | mk v0 ts0 =>
          by_cases hexp : now - ts0 > c.ttl
          · simp only [lruGet, h]
            rw [if_pos hexp]
            exact le_trans (removeKey_length_le k' c.entries) hle
          · simp only [lruGet, h]
            rw [if_neg hexp]
            have hs : (findKey k' c.entries).isSome := by rw [h]; rfl
            have := removeKey_length_of_found k' c.entries hs
            simp only [List.length_append, List.length_cons, List.length_nil]
            omega
    · exact le_trans (removeKey_length_le k' c.entries) hle
    · simp [lruClear]
    · exact le_trans (List.length_filter_le _ c.entries) hle
  · intro e rest he hfresh hfull
    unfold lruPut
    rw [if_neg (by rw [hfresh]; simp)]
    rw [if_pos (by omega)]
    rw [he]
    rfl
  · intro e rest he hrest hnd hlive hfull hfresh
    have hkne : k ∉ c.entries.map (fun x => x.1) :=
      (findKey_eq_none_iff k c.entries).mp hfresh
    have hkne' : k ≠ e.1 ∧ k ∉ rest.map (fun x => x.1) := by
      rw [he] at hkne
      simp only [List.map_cons, List.mem_cons, not_or] at hkne
      exact ⟨hkne.1, hkne.2⟩
    have hget : (lruGet c now e.1).2.entries = rest ++ [e] := by
      have hfind : findKey e.1 c.entries = some e.2 := by
        rw [he]
        simp [findKey]
      simp only [lruGet, hfind, gt_iff_lt]
      rw [if_neg (by omega : ¬ c.ttl < now - e.2.2)]
      rw [he, removeKey_head e.1 e rest rfl]
    constructor
    · unfold lruPut
      rw [hget]
      have hfresh2 : findKey k (rest ++ [e]) = none := by
        rw [findKey_append]
        rw [(findKey_eq_none_iff k rest).mpr hkne'.2]
        simp only [findKey]
        rw [if_neg (fun hc => hkne'.1 hc.symm)]
      rw [if_neg (by rw [hfresh2]; simp)]
      have hlen : (rest ++ [e]).length = c.capacity := by
        have : c.entries.length = rest.length + 1 := by rw [he]; simp
        simp only [List.length_append, List.length_cons, List.length_nil]
        omega
      rw [if_pos (by rw [hlen, lruGet_capacity]; omega)]
      obtain ⟨r0, rs, hr⟩ : ∃ r0 rs, rest = r0 :: rs := by
        cases rest with
        | nil => exact absurd rfl hrest
        | cons r0 rs => exact ⟨r0, rs, rfl⟩
      rw [hr]
      simp
    · unfold lruPut
      rw [if_neg (by rw [hfresh]; simp)]
      rw [if_pos (by omega)]
      rw [he]
      simp only [List.cons_append, List.tail_cons, List.mem_append,
        List.mem_singleton, not_or]
      constructor
      · intro hmem
        rw [he] at hnd
        simp only [List.map_cons, List.nodup_cons] at hnd
        exact hnd.1 (List.mem_map.mpr ⟨e, hmem, rfl⟩)
      · intro hc
        exact hkne'.1 (by rw [hc])

/-- Witness for C6: in a concrete full cache, insertion evicts the
head, and a prior read of the head saves it from that eviction. -/
theorem C6_capacity_eviction_witness :
    (lruPut (⟨2, 10, [("a", (1 : Nat), 0), ("b", 2, 1)]⟩ : LRUCache Nat) 5 "c" 9).entries
      = [("b", 2, 1), ("c", 9, 5)]
    ∧ ("a", (1 : Nat), 0) ∈
        (lruPut ((lruGet (⟨2, 10, [("a", (1 : Nat), 0), ("b", 2, 1)]⟩ : LRUCache Nat) 5 "a").2)
          6 "c" 9).entries := by
  constructor
  · exact (C6_capacity_eviction (⟨2, 10, [("a", (1 : Nat), 0), ("b", 2, 1)]⟩ : LRUCache Nat)
      5 6 "c" "z" 9).2.1 ("a", 1, 0) [("b", 2, 1)] rfl (by decide) (by decide)
  · exact ((C6_capacity_eviction (⟨2, 10, [("a", (1 : Nat), 0), ("b", 2, 1)]⟩ : LRUCache Nat)
      5 6 "c" "z" 9).2.2 ("a", 1, 0) [("b", 2, 1)] rfl (by decide) (by decide)
      (by decide) (by decide) (by decide)).1

/-- C3 counterexample: a file present in both base and overlay with an
empty overlay content — the claim keeps the base's non-empty content,
but the merge keeps the overlay's empty record (content and description
both). -/
theorem C3_counterexample :
    dictLookup "a.txt" (merge_project_structures
        { files := [("a.txt", { content := "x", description := "d" })] }
        [{ files := [("a.txt", { content := "", description := "" })] }]).files
      = some { content := "", description := "" }
    ∧ ({ content := "", description := "" } : FileInfo)
        ≠ { content := "x", description := "d" } :=
  ⟨by decide, by decide⟩

/-- C3 (amended): directories are set-unioned; files and scripts are
key-wise overridden by overlays, later overlays taking precedence, with
the overlay's entire file record (content and description alike)
replacing the base's unconditionally — no non-empty test on content and
no description merge. -/
theorem C3_merge_semantics (base : ProjectStructure) (ovs : List ProjectStructure)
    (hnd : ∀ s ∈ ovs, (s.files.map (fun e => e.1)).Nodup
      ∧ (s.scripts.map (fun e => e.1)).Nodup) :
    (∀ d, d ∈ (merge_project_structures base ovs).directories ↔
        (d ∈ base.directories ∨ ∃ s ∈ ovs, d ∈ s.directories))
    ∧ (∀ fk, dictLookup fk (merge_project_structures base ovs).files
        = overlayLookup fk base.files (ovs.map (fun s => s.files)))
    ∧ (∀ sk, dictLookup sk (merge_project_structures base ovs).scripts
        = overlayLookup sk base.scripts (ovs.map (fun s => s.scripts))) := by
  refine ⟨?_, ?_, ?_⟩
  · intro d
    simp only [merge_project_structures, List.mem_dedup]
    exact foldl_append_dirs_mem d ovs base.directories
  · intro fk
    have h := dictLookup_foldl_updateAll fk (ovs.map (fun s => s.files)) base.files
      (by
        intro l hl
        obtain ⟨s, hs, rfl⟩ := List.mem_map.mp hl
        exact (hnd s hs).1)
    rw [List.foldl_map] at h
    exact h
  · intro sk
    have h := dictLookup_foldl_updateAll sk (ovs.map (fun s => s.scripts)) base.scripts
      (by
        intro l hl
        obtain ⟨s, hs, rfl⟩ := List.mem_map.mp hl
        exact (hnd s hs).2)
    rw [List.foldl_map] at h
    exact h

/-- Witness for C3 at the concrete overriding overlay. -/
theorem C3_merge_semantics_witness :
    dictLookup "a.txt" (merge_project_structures
        { files := [("a.txt", { content := "x", description := "d" })] }
        [{ files := [("a.txt", { content := "y", description := "e" })] }]).files
      = overlayLookup "a.txt" [("a.txt", { content := "x", description := "d" })]
          [[("a.txt", ({ content := "y", description := "e" } : FileInfo))]] :=
  (C3_merge_semantics
    { files := [("a.txt", { content := "x", description := "d" })] }
    [{ files := [("a.txt", { content := "y", description := "e" })] }]
    (by decide)).2.1 "a.txt"

/-- C7: merging with no overlays or with the graph itself is the
identity — literally on the files and scripts mappings, and at the
membership level on directories, which the code round-trips through a
Python `set` (the spec's data model makes `directories` a set, and the
set's materialized iteration order is unspecified). -/
theorem C7_merge_identity (G : ProjectStructure)
    (hf : (G.files.map (fun e => e.1)).Nodup)
    (hs : (G.scripts.map (fun e => e.1)).Nodup) :
    ((∀ d, d ∈ (merge_project_structures G []).directories ↔ d ∈ G.directories)
      ∧ (merge_project_structures G []).files = G.files
      ∧ (merge_project_structures G []).scripts = G.scripts)
    ∧ ((∀ d, d ∈ (merge_project_structures G [G]).directories ↔ d ∈ G.directories)
      ∧ (merge_project_structures G [G]).files = G.files
      ∧ (merge_project_structures G [G]).scripts = G.scripts) := by
  refine ⟨⟨?_, rfl, rfl⟩, ⟨?_, ?_, ?_⟩⟩
  · intro d
    simp [merge_project_structures]
  · intro d
    simp [merge_project_structures]
  · show dictUpdateAll G.files G.files = G.files
    exact dictUpdateAll_self G.files G.files (dictLookup_of_mem_nodup G.files hf)
  · show dictUpdateAll G.scripts G.scripts = G.scripts
    exact dictUpdateAll_self G.scripts G.scripts (dictLookup_of_mem_nodup G.scripts hs)

/-- Witness for C7 at a concrete graph. -/
theorem C7_merge_identity_witness :
    (merge_project_structures
        { directories := ["src"],
          files := [("main.py", { content := "x" })],
          scripts := [("run.sh", "echo")] } []).files
      = [("main.py", { content := "x" })]
    ∧ (merge_project_structures
        { directories := ["src"],
          files := [("main.py", { content := "x" })],
          scripts := [("run.sh", "echo")] }
        [{ directories := ["src"],
           files := [("main.py", { content := "x" })],
           scripts := [("run.sh", "echo")] }]).files
      = [("main.py", { content := "x" })] :=
  ⟨(C7_merge_identity
      { directories := ["src"],
        files := [("main.py", { content := "x" })],
        scripts := [("run.sh", "echo")] } (by decide) (by decide)).1.2.1,
   (C7_merge_identity
      { directories := ["src"],
        files := [("main.py", { content := "x" })],
        scripts := [("run.sh", "echo")] } (by decide) (by decide)).2.2.1⟩

/-- The three replacement passes written out as one composition. -/
def seqReplace (name content : String) : String :=
  pyReplace (pyReplace (pyReplace content "{{project_name}}" name)
    "{{PROJECT_NAME}}" (pyUpper name))
    "{{project-name}}" (pyReplace (pyLower name) " " "-")

theorem pyReplace_of_not_contains (s tok rep : String)
    (htok : tok.data ≠ []) (h : containsTok s.data tok.data = false) :
    pyReplace s tok rep = s := by
  unfold pyReplace
  rw [if_neg htok]
  rw [replaceFuel_of_not_contains tok.data rep.data s.data.length s.data
    (le_refl _) h]

/-- C8 counterexample: a project name that itself contains the token
`{{PROJECT_NAME}}`.  The simultaneous per-token substitution the claim
describes would turn `{{project_name}}` into `a{{PROJECT_NAME}}`
verbatim, but the code's sequential `str.replace` passes rewrite the
text the first pass just inserted, producing `aA{{PROJECT_NAME}}`. -/
theorem C8_counterexample :
    applyReplacements "a{{PROJECT_NAME}}" "{{project_name}}" = "aA{{PROJECT_NAME}}"
    ∧ claimedSubst "a{{PROJECT_NAME}}" "{{project_name}}" = "a{{PROJECT_NAME}}"
    ∧ applyReplacements "a{{PROJECT_NAME}}" "{{project_name}}"
        ≠ claimedSubst "a{{PROJECT_NAME}}" "{{project_name}}"
    ∧ (customize_template
        { files := [("main.py", { content := "{{project_name}}" })] }
        "a{{PROJECT_NAME}}").files
      = [("main.py", { content := "aA{{PROJECT_NAME}}" })] :=
  ⟨by decide, by decide, by decide, by decide⟩

/-- C8 (amended): both customization paths substitute every file's
content by the same three replacements applied sequentially in dict
order (`{{project_name}}`, then `{{PROJECT_NAME}}`, then
`{{project-name}}`) via Python `str.replace`, so text introduced by an
earlier replacement is itself rewritten by later passes; all other
fields are preserved (customization records the project name); content
containing none of the three tokens is returned verbatim, never an
error. -/
theorem C8_substitution (d : Descriptor) (s : ProjectStructure) (name : String) :
    ((customize_template d name).files
        = d.files.map (fun f => (f.1, { f.2 with content := seqReplace name f.2.content }))
      ∧ (customize_template d name).directories = d.directories
      ∧ (customize_template d name).scripts = d.scripts
      ∧ (customize_template d name).projectName = name)
    ∧ ((apply_config_to_structure s name).files
        = s.files.map (fun f => (f.1,
            { f.2 with content := applyReplacements name f.2.content }))
      ∧ (apply_config_to_structure s name).directories = s.directories
      ∧ (apply_config_to_structure s name).scripts = s.scripts)
    ∧ (∀ content : String,
        containsTok content.data "{{project_name}}".data = false →
        containsTok content.data "{{PROJECT_NAME}}".data = false →
        containsTok content.data "{{project-name}}".data = false →
        applyReplacements name content = content) := by
  refine ⟨⟨rfl, rfl, rfl, rfl⟩, ⟨rfl, rfl, rfl⟩, ?_⟩
  intro content h1 h2 h3
  show seqReplace name content = content
  unfold seqReplace
  rw [pyReplace_of_not_contains content "{{project_name}}" name (by decide) h1]
  rw [pyReplace_of_not_contains content "{{PROJECT_NAME}}" (pyUpper name) (by decide) h2]
  rw [pyReplace_of_not_contains content "{{project-name}}"
    (pyReplace (pyLower name) " " "-") (by decide) h3]

/-- Witness for C8: token-free content passes through unchanged. -/
theorem C8_substitution_witness :
    applyReplacements "orders" "print(hello)" = "print(hello)" :=
  (C8_substitution ({} : Descriptor) ({} : ProjectStructure) "orders").2.2
    "print(hello)" (by decide) (by decide) (by decide)

/-- C9: a path passes the filter exactly when it matches some include
pattern (or the include list is absent or empty, Python's falsy test)
and matches no exclude pattern; the filtered structure keeps exactly the
passing entries of each component; an exclude match always wins, even
against a matching include pattern; and with neither list given
everything is included. -/
theorem C9_filter_semantics (path : String) (inc exc : Option (List String))
    (t : ProjectStructure) :
    (matches_patterns path inc exc = true ↔
      (((inc.getD []).isEmpty = true ∨ ∃ p ∈ inc.getD [], fnmatch path p = true)
        ∧ ∀ p ∈ exc.getD [], fnmatch path p = false))
    ∧ (∀ f, f ∈ (apply_filtered t inc exc).files ↔
        f ∈ t.files ∧ matches_patterns f.1 inc exc = true)
    ∧ (∀ d, d ∈ (apply_filtered t inc exc).directories ↔
        d ∈ t.directories ∧ matches_patterns d inc exc = true)
    ∧ (∀ sc, sc ∈ (apply_filtered t inc exc).scripts ↔
        sc ∈ t.scripts ∧ matches_patterns sc.1 inc exc = true)
    ∧ ((∃ p ∈ exc.getD [], fnmatch path p = true) →
        matches_patterns path inc exc = false)
    ∧ matches_patterns path none none = true := by
  have hmain : matches_patterns path inc exc = true ↔
      (((inc.getD []).isEmpty = true ∨ ∃ p ∈ inc.getD [], fnmatch path p = true)
        ∧ ∀ p ∈ exc.getD [], fnmatch path p = false) := by
    simp only [matches_patterns]
    split_ifs with h1 h2 h3
    · rw [Bool.and_eq_true, List.isEmpty_iff, List.isEmpty_iff] at h1
      simp [h1.1, h1.2]
    · simp only [false_iff, not_and, not_forall]
      intro _
      rw [List.any_eq_true] at h2
      obtain ⟨p, hp, hm⟩ := h2
      exact ⟨p, hp, by simp [hm]⟩
    · rw [Bool.not_eq_true'] at h3
      rw [List.any_eq_true] at h2
      push_neg at h2
      constructor
      · intro hany
        rw [List.any_eq_true] at hany
        refine ⟨Or.inr hany, ?_⟩
        intro p hp
        exact Bool.eq_false_iff.mpr (h2 p hp)
      · rintro ⟨hinc | hinc, _⟩
        · rw [hinc] at h3
          exact Bool.noConfusion h3
        · rw [List.any_eq_true]
          exact hinc
    · rw [Bool.not_eq_true, Bool.not_eq_false'] at h3
      rw [List.any_eq_true] at h2
      push_neg at h2
      simp only [true_iff]
      refine ⟨Or.inl h3, ?_⟩
      intro p hp
      exact Bool.eq_false_iff.mpr (h2 p hp)
  refine ⟨hmain, ?_, ?_, ?_, ?_, rfl⟩
  · intro f
    simp [apply_filtered, List.mem_filter]
  · intro d
    simp [apply_filtered, List.mem_filter]
  · intro sc
    simp [apply_filtered, List.mem_filter]
  · rintro ⟨p, hp, hm⟩
    simp only [matches_patterns]
    split_ifs with h1 h2 h3
    · rw [Bool.and_eq_true, List.isEmpty_iff, List.isEmpty_iff] at h1
      rw [h1.2] at hp
      cases hp
    · rfl
    · rw [List.any_eq_true] at h2
      exact absurd ⟨p, hp, hm⟩ h2
    · rw [List.any_eq_true] at h2
      exact absurd ⟨p, hp, hm⟩ h2

/-- Witness for C9: an exclude match forces rejection even though the
include list matches the same path. -/
theorem C9_filter_semantics_witness :
    matches_patterns "config.secret" (some ["*"]) (some ["*.secret"]) = false :=
  (C9_filter_semantics "config.secret" (some ["*"]) (some ["*.secret"])
    ({} : ProjectStructure)).2.2.2.2.1 ⟨"*.secret", by decide, by decide⟩

end Scaffolder
